import Mathlib

/-!
# Lorelei simulator: trial scheduler, worker state machine and result aggregator

A shallow embedding of the `lorelei-simulator` core (the C API declared in
`lorelei_simulator_c/include/lorelei_simulator.h`).  The repository snapshot
contains only the public header (with its doc comments) and the README; the
`.c` implementation of the scheduler/aggregator is not present, so every
operational definition below is modelled from the specification document and
the header's doc comments, as marked on each definition.

Modelling conventions:
* machine counters are `Nat` (they are only ever incremented / decremented
  with a floor at zero, so no wrap-around is reachable);
* the 256-entry histogram is a function `Nat → Nat` read on `[0, 256)`;
* fallible calls return `Option`; a documented fatal precondition violation
  (`simulator_start` on a running simulator) is modelled as `none`;
* concurrency is modelled by a small-step relation `Step` over the simulator
  state, one atomic action of one worker per step; an arbitrary interleaving
  is an arbitrary `Step`-path.
-/

namespace Lorelei

/-- Modelled from the spec (§4.2): the worker state machine
`AcquireBudget → RunTrial → RecordResult`, looping until `BudgetExhausted`
or `StopRequested`.  `RecordResult` is split into its two separately atomic
increments (`recHist`: histogram increment pending with the decided outcome;
`recTotal`: histogram bumped, total-counter increment pending), because the
spec says the two increments are not one atomic unit. -/
inductive Phase : Type where
  | acquire : Phase
  | trial : Phase
  | recHist : Fin 256 → Phase
  | recTotal : Phase
  | done : Phase

/-- Modelled from the spec (§3): the `Simulator` struct of the missing `.c`
file.  Copies of the image and save-state bytes, an optional remaining trial
budget (`none` = unbounded), the atomic running/idle flag, the shared stop
signal, the 256-slot histogram, the total-completed-trials counter, and the
pool of worker threads (represented by their current phases).  `started`
counts budget claims (trials ever started) across the whole lifetime. -/
structure Simulator : Type where
  rom : List Nat
  save_state : List Nat
  budget : Option Nat
  running : Bool
  stop_requested : Bool
  hist : Nat → Nat
  total : Nat
  started : Nat
  workers : List Phase

/-- Modelled from the spec (§4.1 create, §7): the missing `.c` body of
`simulator_new`.  Validation of the image/save-state bytes is fully delegated
to the Decision Engine collaborator, abstracted as the `validate` argument.
`number_of_trials` is the nullable pointer argument (`none` = NULL = run
forever) and `mem` is the caller's memory, so the budget is the value the
pointer refers to at the moment of the call. -/
def simulator_new (validate : List Nat → List Nat → Bool) (rom save : List Nat)
    (number_of_trials : Option Nat) (mem : Nat → Nat) : Option Simulator :=
  if validate rom save then
    some { rom := rom, save_state := save, budget := number_of_trials.map mem,
           running := false, stop_requested := false, hist := fun _ => 0,
           total := 0, started := 0, workers := [] }
  else none

/-- Modelled from the spec (§4.1 start): the missing `.c` body of
`simulator_start`.  `hw` is the detected hardware parallelism, used when
`thread_count = 0`.  Calling it on a running simulator is a fatal
precondition violation, modelled as `none`; otherwise the requested number
of workers is spawned in the `acquire` phase and the simulator is Running
when the call returns. -/
def simulator_start (hw : Nat) (s : Simulator) (thread_count : Nat) : Option Simulator :=
  if s.running then none
  else
    some { s with running := true, stop_requested := false,
                  workers := List.replicate (if thread_count = 0 then hw else thread_count)
                    Phase.acquire }

/-- One histogram increment at outcome `o`. -/
def bump (h : Nat → Nat) (o : Fin 256) : Nat → Nat :=
  Function.update h o.val (h o.val + 1)

/-- Modelled from the spec (§4.2, §5): one atomic action of one worker.  The
acted-on worker is singled out by splitting the pool as `pre ++ w :: post`,
so any interleaving of any number of workers is a `Step`-path.
* a worker acquiring budget terminates if the stop signal is up;
* otherwise it proceeds when unbounded, atomically decrements a positive
  budget counter (the successful compare-and-exchange), or terminates when
  the counter is already zero (the floor-at-zero of the retry protocol);
* a trial synchronously yields one outcome `o < 256` chosen by the Decision
  Engine (nondeterministic here);
* recording is two separately atomic increments: `histogram[o]` first, the
  total-completed-trials counter second. -/
inductive Step : Simulator → Simulator → Prop where
  | acquire_stopped (s : Simulator) (pre post : List Phase)
      (hw : s.workers = pre ++ Phase.acquire :: post)
      (hstop : s.stop_requested = true) :
      Step s { s with workers := pre ++ Phase.done :: post }
  | acquire_unbounded (s : Simulator) (pre post : List Phase)
      (hw : s.workers = pre ++ Phase.acquire :: post)
      (hstop : s.stop_requested = false)
      (hb : s.budget = none) :
      Step s { s with started := s.started + 1, workers := pre ++ Phase.trial :: post }
  | acquire_claim (s : Simulator) (pre post : List Phase) (n : Nat)
      (hw : s.workers = pre ++ Phase.acquire :: post)
      (hstop : s.stop_requested = false)
      (hb : s.budget = some (n + 1)) :
      Step s { s with budget := some n, started := s.started + 1,
                      workers := pre ++ Phase.trial :: post }
  | acquire_exhausted (s : Simulator) (pre post : List Phase)
      (hw : s.workers = pre ++ Phase.acquire :: post)
      (hstop : s.stop_requested = false)
      (hb : s.budget = some 0) :
      Step s { s with workers := pre ++ Phase.done :: post }
  | trial_decide (s : Simulator) (pre post : List Phase) (o : Fin 256)
      (hw : s.workers = pre ++ Phase.trial :: post) :
      Step s { s with workers := pre ++ Phase.recHist o :: post }
  | record_hist (s : Simulator) (pre post : List Phase) (o : Fin 256)
      (hw : s.workers = pre ++ Phase.recHist o :: post) :
      Step s { s with hist := bump s.hist o, workers := pre ++ Phase.recTotal :: post }
  | record_total (s : Simulator) (pre post : List Phase)
      (hw : s.workers = pre ++ Phase.recTotal :: post) :
      Step s { s with total := s.total + 1, workers := pre ++ Phase.acquire :: post }

/-- Any finite interleaving of worker actions. -/
def Steps : Simulator → Simulator → Prop :=
  Relation.ReflTransGen Step

/-- Every worker thread has terminated. -/
def AllDone (s : Simulator) : Prop :=
  ∀ w ∈ s.workers, w = Phase.done

/-- Modelled from the spec (§4.1 stop): the missing `.c` body of
`simulator_stop`, as a relation from the pre-call state to the state when the
call returns (the drain of in-flight trials is nondeterministic).  On an idle
simulator it is a no-op.  On a running one it raises the shared stop signal,
lets every worker finish its current trial and terminate (a `Steps`-path
ending with all workers done — a worker is never aborted mid-trial), joins
the threads, and transitions to Idle before returning. -/
def simulator_stop (s s' : Simulator) : Prop :=
  if s.running then
    ∃ t, Steps { s with stop_requested := true } t ∧ AllDone t ∧
      s' = { t with running := false, workers := ([] : List Phase) }
  else s' = s

/-- Modelled from the spec (§3 lifecycle): one event in the simulator's
lifetime — a worker action, a successful `simulator_start`, or a
`simulator_stop`. -/
inductive LifeStep (hw : Nat) : Simulator → Simulator → Prop where
  | work (s t : Simulator) (h : Step s t) : LifeStep hw s t
  | start (s t : Simulator) (thread_count : Nat)
      (h : simulator_start hw s thread_count = some t) : LifeStep hw s t
  | stop (s t : Simulator) (h : simulator_stop s t) : LifeStep hw s t

/-- All states reachable across the simulator's entire lifetime. -/
def Lifetime (hw : Nat) : Simulator → Simulator → Prop :=
  Relation.ReflTransGen (LifeStep hw)

/-- A bounded run has exhausted its budget naturally: a worker pool exists,
every worker has terminated, and no external stop was ever requested. -/
def NaturalExhaustion (s : Simulator) : Prop :=
  s.workers ≠ [] ∧ AllDone s ∧ s.stop_requested = false

/-- The worker holds a claimed trial that has not yet been counted in the
total-completed-trials counter. -/
def phaseInflight : Phase → Bool
  | Phase.trial => true
  | Phase.recHist _ => true
  | Phase.recTotal => true
  | _ => false

/-- The worker has bumped the histogram but not yet the total counter. -/
def phaseMidHist : Phase → Bool
  | Phase.recTotal => true
  | _ => false

/-- Number of claimed-but-not-yet-counted trials in the pool. -/
def inflight (ws : List Phase) : Nat :=
  ws.countP phaseInflight

/-- Number of workers between their two record increments. -/
def midHist (ws : List Phase) : Nat :=
  ws.countP phaseMidHist

/-- Sum of all 256 histogram outcome counters. -/
def sumHist (h : Nat → Nat) : Nat :=
  ∑ i ∈ Finset.range 256, h i

/-- Modelled from the spec (§4.1 is_running): the missing `.c` body of
`simulator_is_running`: an atomic read of the running/idle flag.  The second
component is the simulator state when the call returns, making the absence
of side effects explicit. -/
def simulator_is_running (s : Simulator) : Bool × Simulator :=
  (s.running, s)

/-- The nonzero (outcome, count) pairs of the histogram, in outcome order. -/
def resultPairs (s : Simulator) : List (Nat × Nat) :=
  (List.range 256).filterMap fun i => if s.hist i = 0 then none else some (i, s.hist i)

/-- The display order of `simulator_results` (§4.3): descending count,
ties broken by ascending outcome value. -/
def pairOrder (a b : Nat × Nat) : Prop :=
  b.2 < a.2 ∨ (a.2 = b.2 ∧ a.1 ≤ b.1)

instance : DecidableRel pairOrder := fun a b =>
  inferInstanceAs (Decidable (b.2 < a.2 ∨ (a.2 = b.2 ∧ a.1 ≤ b.1)))

instance : IsTotal (Nat × Nat) pairOrder :=
  ⟨by intro a b; unfold pairOrder; omega⟩

instance : IsTrans (Nat × Nat) pairOrder :=
  ⟨by intro a b c; unfold pairOrder; omega⟩

/-- Modelled from the spec (§4.3, §6 results): the missing `.c` body of
`simulator_results`.  The caller passes buffers of capacity `size`; the call
writes up to `size` (index, count) pairs — only outcomes with nonzero count,
ordered by descending count with ties broken by ascending outcome — and
overwrites `size` with the number of pairs actually written.  The first
component models the filled prefix of the buffers, the second the value
written back through the `size` pointer. -/
def simulator_results (s : Simulator) (size : Nat) : List (Nat × Nat) × Nat :=
  ((List.insertionSort pairOrder (resultPairs s)).take size,
    ((List.insertionSort pairOrder (resultPairs s)).take size).length)

/-- `simulator_results` as a call on a simulator state: the second component
is the state when the call returns (the parameter is `const` in the C API). -/
def simulator_results_call (s : Simulator) (size : Nat) :
    (List (Nat × Nat) × Nat) × Simulator :=
  (simulator_results s size, s)

/-- Modelled from the spec (§4.4): the missing `.c` body of
`simulator_move_name` and its static move-name table (the table contents are
not under `src`, so the table is abstracted as the `table` argument covering
the full `[0,255]` index range; unmapped indices hold `none` = NULL).  The
uint8 argument is modelled as a `Nat` reduced mod 256. -/
def simulator_move_name (table : Nat → Option String) (index : Nat) : Option String :=
  table (index % 256)

/-- `simulator_move_name` as a call made while some simulator state exists:
the second component is that state when the call returns. -/
def simulator_move_name_call (table : Nat → Option String) (index : Nat)
    (s : Simulator) : Option String × Simulator :=
  (simulator_move_name table index, s)

/-- A freshly constructed simulator with budget `b`, used to instantiate the
reachability theorems at concrete states. -/
def mkSim (b : Option Nat) : Simulator :=
  { rom := [], save_state := [], budget := b, running := false,
    stop_requested := false, hist := fun _ => 0, total := 0, started := 0,
    workers := [] }

/-- The lifetime invariant of a simulator created with initial budget `b0`:
the counting identities tying the budget counter, the ghost count of started
trials, the total-completed counter and the histogram sum to the phases of
the worker pool, plus: an idle simulator has no workers, and a worker that
terminated without a stop request can only have seen an exhausted budget. -/
structure Inv (b0 : Option Nat) (s : Simulator) : Prop where
  count_total : s.total + inflight s.workers = s.started
  count_hist : sumHist s.hist = s.total + midHist s.workers
  budget_none : b0 = none → s.budget = none
  budget_some : ∀ B, b0 = some B → ∃ r, s.budget = some r ∧ r + s.started = B
  idle_workers : s.running = false → s.workers = []
  done_budget : s.stop_requested = false → Phase.done ∈ s.workers → s.budget = some 0

/-- `countP` of a pool with one worker singled out. -/
theorem countP_middle (p : Phase → Bool) (pre post : List Phase) (x : Phase) :
    (pre ++ x :: post).countP p
      = pre.countP p + post.countP p + (if p x then 1 else 0) := by
  rcases h : p x
  · simp [h, List.countP_append, List.countP_cons]
  · simp [h, List.countP_append, List.countP_cons]
    try omega

/-- One histogram bump raises the 256-slot sum by exactly one. -/
theorem sumHist_bump (h : Nat → Nat) (o : Fin 256) :
    sumHist (bump h o) = sumHist h + 1 := by
  have ho : o.val ∈ Finset.range 256 := Finset.mem_range.mpr o.isLt
  unfold sumHist bump
  rw [Finset.sum_update_of_mem ho, ← Finset.add_sum_erase _ h ho, Finset.erase_eq]
  omega

/-- A terminated worker stays in the pool when another slot is replaced by a
non-terminated phase. -/
theorem done_mem_of_middle {pre post : List Phase} {x : Phase}
    (hx : x ≠ Phase.done) (hmem : Phase.done ∈ pre ++ x :: post) (y : Phase) :
    Phase.done ∈ pre ++ y :: post := by
  simp only [List.mem_append, List.mem_cons] at hmem ⊢
  rcases hmem with h | h | h
  · exact Or.inl h
  · exact absurd h.symm hx
  · exact Or.inr (Or.inr h)

/-- The lifetime invariant is preserved by every single worker action. -/
theorem inv_step {b0 : Option Nat} {s t : Simulator} (hs : Inv b0 s) (h : Step s t) :
    Inv b0 t := by
  obtain ⟨hct, hch, hbn, hbs, hiw, hdb⟩ := hs
  cases h with
  | acquire_stopped pre post hw hstop =>
      refine ⟨?_, ?_, hbn, hbs, ?_, ?_⟩
      · dsimp only
        rw [hw] at hct
        simp [inflight, countP_middle, phaseInflight] at hct ⊢
        omega
      · dsimp only
        rw [hw] at hch
        simp [midHist, countP_middle, phaseMidHist] at hch ⊢
        omega
      · intro hr
        rw [hiw hr] at hw
        simp at hw
      · intro hsr
        dsimp only at hsr
        rw [hstop] at hsr
        simp at hsr
  | acquire_unbounded pre post hw hstop hb =>
      refine ⟨?_, ?_, hbn, ?_, ?_, ?_⟩
      · dsimp only
        rw [hw] at hct
        simp [inflight, countP_middle, phaseInflight] at hct ⊢
        omega
      · dsimp only
        rw [hw] at hch
        simp [midHist, countP_middle, phaseMidHist] at hch ⊢
        omega
      · intro B hB
        obtain ⟨r, hr, _⟩ := hbs B hB
        rw [hb] at hr
        simp at hr
      · intro hr
        rw [hiw hr] at hw
        simp at hw
      · intro hsr hmem
        dsimp only at hsr hmem ⊢
        have : Phase.done ∈ s.workers := by
          rw [hw]
          exact done_mem_of_middle (by simp) hmem Phase.acquire
        exact hdb hsr this
  | acquire_claim pre post n hw hstop hb =>
      refine ⟨?_, ?_, ?_, ?_, ?_, ?_⟩
      · dsimp only
        rw [hw] at hct
        simp [inflight, countP_middle, phaseInflight] at hct ⊢
        omega
      · dsimp only
        rw [hw] at hch
        simp [midHist, countP_middle, phaseMidHist] at hch ⊢
        omega
      · intro h0
        rw [hbn h0] at hb
        simp at hb
      · intro B hB
        obtain ⟨r, hr, hrB⟩ := hbs B hB
        have hrn : r = n + 1 := Option.some.inj (hr.symm.trans hb)
        refine ⟨n, rfl, ?_⟩
        dsimp only
        omega
      · intro hr
        rw [hiw hr] at hw
        simp at hw
      · intro hsr hmem
        dsimp only at hsr hmem ⊢
        have hmem' : Phase.done ∈ s.workers := by
          rw [hw]
          exact done_mem_of_middle (by simp) hmem Phase.acquire
        have h0 := hdb hsr hmem'
        rw [hb] at h0
        simp at h0
  | acquire_exhausted pre post hw hstop hb =>
      refine ⟨?_, ?_, hbn, hbs, ?_, ?_⟩
      · dsimp only
        rw [hw] at hct
        simp [inflight, countP_middle, phaseInflight] at hct ⊢
        omega
      · dsimp only
        rw [hw] at hch
        simp [midHist, countP_middle, phaseMidHist] at hch ⊢
        omega
      · intro hr
        rw [hiw hr] at hw
        simp at hw
      · intro _ _
        exact hb
  | trial_decide pre post o hw =>
      refine ⟨?_, ?_, hbn, hbs, ?_, ?_⟩
      · dsimp only
        rw [hw] at hct
        simp [inflight, countP_middle, phaseInflight] at hct ⊢
        omega
      · dsimp only
        rw [hw] at hch
        simp [midHist, countP_middle, phaseMidHist] at hch ⊢
        omega
      · intro hr
        rw [hiw hr] at hw
        simp at hw
      · intro hsr hmem
        dsimp only at hsr hmem ⊢
        have : Phase.done ∈ s.workers := by
          rw [hw]
          exact done_mem_of_middle (by simp) hmem Phase.trial
        exact hdb hsr this
  | record_hist pre post o hw =>
      refine ⟨?_, ?_, hbn, hbs, ?_, ?_⟩
      · dsimp only
        rw [hw] at hct
        simp [inflight, countP_middle, phaseInflight] at hct ⊢
        omega
      · dsimp only
        rw [hw] at hch
        rw [sumHist_bump]
        simp [midHist, countP_middle, phaseMidHist] at hch ⊢
        omega
      · intro hr
        rw [hiw hr] at hw
        simp at hw
      · intro hsr hmem
        dsimp only at hsr hmem ⊢
        have : Phase.done ∈ s.workers := by
          rw [hw]
          exact done_mem_of_middle (by simp) hmem (Phase.recHist o)
        exact hdb hsr this
  | record_total pre post hw =>
      refine ⟨?_, ?_, hbn, ?_, ?_, ?_⟩
      · dsimp only
        rw [hw] at hct
        simp [inflight, countP_middle, phaseInflight] at hct ⊢
        omega
      · dsimp only
        rw [hw] at hch
        simp [midHist, countP_middle, phaseMidHist] at hch ⊢
        omega
      · intro B hB
        obtain ⟨r, hr, hrB⟩ := hbs B hB
        refine ⟨r, hr, ?_⟩
        dsimp only
        omega
      · intro hr
        rw [hiw hr] at hw
        simp at hw
      · intro hsr hmem
        dsimp only at hsr hmem ⊢
        have : Phase.done ∈ s.workers := by
          rw [hw]
          exact done_mem_of_middle (by simp) hmem Phase.recTotal
        exact hdb hsr this

/-- The lifetime invariant is preserved by any interleaving of worker
actions. -/
theorem inv_steps {b0 : Option Nat} {s t : Simulator} (hs : Inv b0 s) (h : Steps s t) :
    Inv b0 t := by
  induction h with
  | refl => exact hs
  | tail _ hstep ih => exact inv_step ih hstep

/-- A fully terminated pool holds no in-flight trials. -/
theorem alldone_inflight {s : Simulator} (h : AllDone s) : inflight s.workers = 0 := by
  unfold inflight
  rw [List.countP_eq_zero]
  intro w hwmem
  rw [h w hwmem]
  simp [phaseInflight]

/-- A fully terminated pool holds no worker between its two increments. -/
theorem alldone_midHist {s : Simulator} (h : AllDone s) : midHist s.workers = 0 := by
  unfold midHist
  rw [List.countP_eq_zero]
  intro w hwmem
  rw [h w hwmem]
  simp [phaseMidHist]

/-- The lifetime invariant is preserved by `simulator_stop`. -/
theorem inv_stop {b0 : Option Nat} {s s' : Simulator} (hs : Inv b0 s)
    (h : simulator_stop s s') : Inv b0 s' := by
  unfold simulator_stop at h
  by_cases hr : s.running = true
  · rw [if_pos hr] at h
    obtain ⟨t, hsteps, hdone, rfl⟩ := h
    have hs1 : Inv b0 { s with stop_requested := true } := by
      obtain ⟨hct, hch, hbn, hbs, hiw, hdb⟩ := hs
      refine ⟨hct, hch, hbn, hbs, hiw, ?_⟩
      intro hsr
      dsimp only at hsr
      simp at hsr
    have hst := inv_steps hs1 hsteps
    obtain ⟨hct, hch, hbn, hbs, hiw, hdb⟩ := hst
    have hifl := alldone_inflight hdone
    have hmh := alldone_midHist hdone
    refine ⟨?_, ?_, hbn, ?_, ?_, ?_⟩
    · dsimp only
      have h0 : inflight ([] : List Phase) = 0 := rfl
      omega
    · dsimp only
      have h0 : midHist ([] : List Phase) = 0 := rfl
      omega
    · intro B hB
      exact hbs B hB
    · intro _
      rfl
    · intro _ hmem
      dsimp only at hmem
      simp at hmem
  · rw [if_neg hr] at h
    subst h
    exact hs

/-- The lifetime invariant is preserved by every lifetime event. -/
theorem inv_lifestep {hw : Nat} {b0 : Option Nat} {s t : Simulator} (hs : Inv b0 s)
    (h : LifeStep hw s t) : Inv b0 t := by
  cases h with
  | work hstep => exact inv_step hs hstep
  | start thread_count hstart =>
      unfold simulator_start at hstart
      by_cases hr : s.running = true
      · rw [if_pos hr] at hstart
        simp at hstart
      · rw [if_neg hr] at hstart
        have ht := Option.some.inj hstart
        subst ht
        obtain ⟨hct, hch, hbn, hbs, hiw, hdb⟩ := hs
        have hwk : s.workers = [] := hiw (by simpa using hr)
        have hrep : ∀ p : Phase → Bool, p Phase.acquire = false →
            (List.replicate (if thread_count = 0 then hw else thread_count)
              Phase.acquire).countP p = 0 := by
          intro p hp
          rw [List.countP_eq_zero]
          intro a ha
          rw [List.eq_of_mem_replicate ha]
          simp [hp]
        refine ⟨?_, ?_, hbn, ?_, ?_, ?_⟩
        · dsimp only
          rw [hwk] at hct
          have h1 := hrep phaseInflight rfl
          unfold inflight at hct ⊢
          simp only [List.countP_nil] at hct
          omega
        · dsimp only
          rw [hwk] at hch
          have h1 := hrep phaseMidHist rfl
          unfold midHist at hch ⊢
          simp only [List.countP_nil] at hch
          omega
        · intro B hB
          exact hbs B hB
        · intro h0
          dsimp only at h0
          simp at h0
        · intro hsr hmem
          dsimp only at hmem
          have := List.eq_of_mem_replicate hmem
          simp at this
  | stop hstop => exact inv_stop hs hstop

/-- The lifetime invariant holds in every state reachable across the
simulator's lifetime. -/
theorem inv_lifetime {hw : Nat} {b0 : Option Nat} {s t : Simulator} (hs : Inv b0 s)
    (h : Lifetime hw s t) : Inv b0 t := by
  induction h with
  | refl => exact hs
  | tail _ hstep ih => exact inv_lifestep ih hstep

/-- The lifetime invariant holds at construction. -/
theorem inv_new {validate : List Nat → List Nat → Bool} {rom save : List Nat}
    {nt : Option Nat} {mem : Nat → Nat} {s0 : Simulator}
    (h : simulator_new validate rom save nt mem = some s0) :
    Inv (nt.map mem) s0 := by
  unfold simulator_new at h
  by_cases hv : validate rom save = true
  · rw [if_pos hv] at h
    have h0 := Option.some.inj h
    subst h0
    refine ⟨?_, ?_, ?_, ?_, ?_, ?_⟩
    · rfl
    · simp [sumHist, midHist]
    · intro h1
      exact h1
    · intro B hB
      exact ⟨B, hB, rfl⟩
    · intro _
      rfl
    · intro _ hmem
      simp at hmem
  · rw [if_neg hv] at h
    simp at h

/-- `simulator_stop` always returns with the simulator Idle. -/
theorem stop_sets_idle {s s' : Simulator} (h : simulator_stop s s') :
    s'.running = false := by
  unfold simulator_stop at h
  by_cases hr : s.running = true
  · rw [if_pos hr] at h
    obtain ⟨t, _, _, rfl⟩ := h
    rfl
  · rw [if_neg hr] at h
    subst h
    simpa using hr

/-- `simulator_stop` on an Idle simulator changes nothing. -/
theorem stop_of_idle {s s' : Simulator} (hr : s.running = false)
    (h : simulator_stop s s') : s' = s := by
  unfold simulator_stop at h
  rw [hr] at h
  simpa using h

/-- Claim C1: for every simulator created with a non-null trial budget
pointer referring to the value `B`, across the simulator's entire lifetime
(any interleaving of worker actions, starts and stops, for any thread count
and hardware parallelism) at most `B` trials are ever started, and whenever
a bounded run reaches natural exhaustion (a spawned pool in which every
worker terminated with no stop ever requested) exactly `B` trials have
completed — never more, never fewer. -/
theorem bounded_budget_exact (hw : Nat) (validate : List Nat → List Nat → Bool)
    (rom save : List Nat) (p : Nat) (mem : Nat → Nat) (B : Nat) (s0 s : Simulator)
    (hmem : mem p = B)
    (hnew : simulator_new validate rom save (some p) mem = some s0)
    (hrun : Lifetime hw s0 s) :
    s.started ≤ B ∧ (NaturalExhaustion s → s.total = B) := by
  have hinv0 := inv_new hnew
  rw [Option.map_some', hmem] at hinv0
  have hinv := inv_lifetime hinv0 hrun
  obtain ⟨hct, hch, hbn, hbs, hiw, hdb⟩ := hinv
  obtain ⟨r, hr, hrB⟩ := hbs B rfl
  constructor
  · omega
  · rintro ⟨hne, hdone, hstop⟩
    have hmem' : Phase.done ∈ s.workers := by
      obtain ⟨w, hwmem⟩ := List.exists_mem_of_ne_nil _ hne
      exact hdone w hwmem ▸ hwmem
    have h0 := hdb hstop hmem'
    rw [hr] at h0
    have hr0 : r = 0 := Option.some.inj h0
    have hifl := alldone_inflight hdone
    omega

/-- Concrete instantiation of `bounded_budget_exact` at a freshly created
simulator with budget 2. -/
theorem bounded_budget_exact_check :
    (mkSim (some 2)).started ≤ 2 ∧
      (NaturalExhaustion (mkSim (some 2)) → (mkSim (some 2)).total = 2) :=
  bounded_budget_exact 4 (fun _ _ => true) [] [] 0 (fun _ => 2) 2
    (mkSim (some 2)) (mkSim (some 2)) rfl rfl Relation.ReflTransGen.refl

/-- Claim C2: in any lifetime-reachable Idle state (in particular after any
`simulator_stop` has returned, and right after construction) the sum of the
256 histogram outcome counters equals the total-completed-trials counter. -/
theorem idle_histogram_sum (hw : Nat) (validate : List Nat → List Nat → Bool)
    (rom save : List Nat) (nt : Option Nat) (mem : Nat → Nat) (s0 s : Simulator)
    (hnew : simulator_new validate rom save nt mem = some s0)
    (hrun : Lifetime hw s0 s)
    (hidle : s.running = false) :
    sumHist s.hist = s.total := by
  have hinv := inv_lifetime (inv_new hnew) hrun
  obtain ⟨hct, hch, hbn, hbs, hiw, hdb⟩ := hinv
  have hwk := hiw hidle
  rw [hwk] at hch
  simpa [midHist] using hch

/-- Concrete instantiation of `idle_histogram_sum` at a freshly created
unbounded simulator. -/
theorem idle_histogram_sum_check :
    sumHist (mkSim none).hist = (mkSim none).total :=
  idle_histogram_sum 1 (fun _ _ => true) [] [] none (fun _ => 0)
    (mkSim none) (mkSim none) rfl Relation.ReflTransGen.refl rfl

/-- Claim C4: `simulator_new` returns a null handle exactly when the
Decision Engine rejects the image or save state, and on success the
simulator is Idle with zero completed trials, an all-zero histogram (hence
zero histogram sum) and no workers. -/
theorem new_validation (validate : List Nat → List Nat → Bool)
    (rom save : List Nat) (nt : Option Nat) (mem : Nat → Nat) :
    (simulator_new validate rom save nt mem = none ↔ validate rom save = false) ∧
    (∀ sim, simulator_new validate rom save nt mem = some sim →
      sim.running = false ∧ sim.total = 0 ∧ (∀ i, sim.hist i = 0) ∧
        sumHist sim.hist = 0 ∧ sim.workers = []) := by
  cases hv : validate rom save
  · constructor
    · simp [simulator_new, hv]
    · intro sim hsim
      simp [simulator_new, hv] at hsim
  · constructor
    · simp [simulator_new, hv]
    · intro sim hsim
      simp only [simulator_new, hv, if_true] at hsim
      have h0 := Option.some.inj hsim
      subst h0
      exact ⟨rfl, rfl, fun i => rfl, by simp [sumHist], rfl⟩

/-- Concrete instantiation of `new_validation`: a rejecting engine yields a
null handle. -/
theorem new_validation_check :
    simulator_new (fun _ _ => false) [] [] none (fun _ => 0) = none :=
  (new_validation (fun _ _ => false) [] [] none (fun _ => 0)).1.mpr rfl

/-- Claim C5: `simulator_start` on a Running simulator is the fatal
precondition violation (modelled as `none`), never a recoverable error or a
silent no-op; it returns a simulator (which is then Running) exactly when
called in the Idle state. -/
theorem start_requires_idle (hw : Nat) (s : Simulator) (thread_count : Nat) :
    (simulator_start hw s thread_count = none ↔ s.running = true) ∧
    (∀ t, simulator_start hw s thread_count = some t →
      s.running = false ∧ t.running = true) := by
  cases hr : s.running
  · constructor
    · simp [simulator_start, hr]
    · intro t ht
      simp only [simulator_start, hr, Bool.false_eq_true, if_false] at ht
      have h0 := Option.some.inj ht
      subst h0
      exact ⟨rfl, rfl⟩
  · constructor
    · simp [simulator_start, hr]
    · intro t ht
      simp [simulator_start, hr] at ht

/-- Concrete instantiation of `start_requires_idle`: starting an
already-Running simulator crashes. -/
theorem start_requires_idle_check :
    simulator_start 4 { mkSim none with running := true } 1 = none :=
  (start_requires_idle 4 { mkSim none with running := true } 1).1.mpr rfl

/-- Claim C6: `simulator_stop` is idempotent and safe in every state: on an
Idle simulator it is a no-op, it always returns with the simulator Idle, and
a second stop right after a first one changes nothing more. -/
theorem stop_idempotent (s s' s'' : Simulator) :
    (s.running = false → simulator_stop s s' → s' = s) ∧
    (simulator_stop s s' → s'.running = false) ∧
    (simulator_stop s s' → simulator_stop s' s'' → s'' = s') :=
  ⟨fun hr h => stop_of_idle hr h, fun h => stop_sets_idle h,
    fun h1 h2 => stop_of_idle (stop_sets_idle h1) h2⟩

/-- Concrete instantiation of `stop_idempotent` on an Idle simulator. -/
theorem stop_idempotent_check :
    simulator_stop (mkSim none) (mkSim none) ∧ (mkSim none).running = false :=
  ⟨by simp [simulator_stop, mkSim],
    (stop_idempotent (mkSim none) (mkSim none) (mkSim none)).2.1
      (by simp [simulator_stop, mkSim])⟩

/-- Claim C7: `simulator_results` called with capacity 0 writes zero pairs
and sets the size out-parameter to 0, for every simulator state (Running or
Idle). -/
theorem results_capacity_zero (s : Simulator) :
    (simulator_results s 0).1 = [] ∧ (simulator_results s 0).2 = 0 :=
  ⟨rfl, rfl⟩

/-- Claim C8: `simulator_move_name` is a pure, deterministic query over the
fixed static table: its result is the same whatever simulator state exists
at call time (or none at all), the call leaves any such state untouched, and
unmapped indices return NULL. -/
theorem move_name_pure (table : Nat → Option String) (index : Nat)
    (s t : Simulator) :
    (simulator_move_name_call table index s).1
        = (simulator_move_name_call table index t).1 ∧
    (simulator_move_name_call table index s).2 = s ∧
    (table (index % 256) = none → simulator_move_name table index = none) :=
  ⟨rfl, rfl, fun h => h⟩

/-- Concrete instantiation of `move_name_pure` at an unmapped index. -/
theorem move_name_pure_check :
    simulator_move_name (fun _ => none) 7 = none :=
  (move_name_pure (fun _ => none) 7 (mkSim none) (mkSim none)).2.2 rfl

/-- Claim C9: the read-only queries `simulator_is_running` and
`simulator_results` leave every observable simulator field (histogram,
total counter, budget, running flag, image and save-state copies, workers)
unchanged. -/
theorem readonly_queries_frame (s : Simulator) (size : Nat) :
    (simulator_is_running s).2 = s ∧
    (simulator_results_call s size).2 = s ∧
    (simulator_is_running s).1 = s.running ∧
    (simulator_is_running s).2.hist = s.hist ∧
    (simulator_is_running s).2.total = s.total ∧
    (simulator_results_call s size).2.hist = s.hist ∧
    (simulator_results_call s size).2.total = s.total ∧
    (simulator_results_call s size).2.budget = s.budget ∧
    (simulator_results_call s size).2.running = s.running ∧
    (simulator_results_call s size).2.rom = s.rom ∧
    (simulator_results_call s size).2.save_state = s.save_state ∧
    (simulator_results_call s size).2.workers = s.workers :=
  ⟨rfl, rfl, rfl, rfl, rfl, rfl, rfl, rfl, rfl, rfl, rfl, rfl⟩

/-- Claim C10: `simulator_new` depends on its `number_of_trials` pointer
only through the value it refers to at the moment of the call (two memories
agreeing at the pointer give identical results, so later changes to the
caller's variable cannot affect the budget), a null pointer selects the
unbounded mode, and a non-null pointer fixes the budget to the dereferenced
value. -/
theorem new_deref_only (validate : List Nat → List Nat → Bool)
    (rom save : List Nat) (p : Nat) (mem mem' : Nat → Nat) :
    (mem p = mem' p →
      simulator_new validate rom save (some p) mem
        = simulator_new validate rom save (some p) mem') ∧
    (∀ sim, simulator_new validate rom save (some p) mem = some sim →
      sim.budget = some (mem p)) ∧
    (∀ sim, simulator_new validate rom save none mem = some sim →
      sim.budget = none) := by
  refine ⟨?_, ?_, ?_⟩
  · intro h
    simp [simulator_new, h]
  · intro sim hsim
    unfold simulator_new at hsim
    by_cases hv : validate rom save = true
    · rw [if_pos hv] at hsim
      have h0 := Option.some.inj hsim
      subst h0
      rfl
    · rw [if_neg hv] at hsim
      simp at hsim
  · intro sim hsim
    unfold simulator_new at hsim
    by_cases hv : validate rom save = true
    · rw [if_pos hv] at hsim
      have h0 := Option.some.inj hsim
      subst h0
      rfl
    · rw [if_neg hv] at hsim
      simp at hsim

/-- Concrete instantiation of `new_deref_only`: two different memories that
agree at the pointer produce the same simulator. -/
theorem new_deref_only_check :
    simulator_new (fun _ _ => true) [] [] (some 0) (fun _ => 5)
      = simulator_new (fun _ _ => true) [] [] (some 0) (fun n => n + 5) :=
  (new_deref_only (fun _ _ => true) [] [] 0 (fun _ => 5) (fun n => n + 5)).1 rfl

/-- Every pair produced by the aggregator snapshot is a real histogram entry
with a nonzero count and an in-range outcome. -/
theorem mem_resultPairs {s : Simulator} {q : Nat × Nat} (h : q ∈ resultPairs s) :
    q.1 < 256 ∧ q.2 = s.hist q.1 ∧ q.2 ≠ 0 := by
  unfold resultPairs at h
  rw [List.mem_filterMap] at h
  obtain ⟨i, hi, hq⟩ := h
  rw [List.mem_range] at hi
  by_cases h0 : s.hist i = 0
  · rw [if_pos h0] at hq
    simp at hq
  · rw [if_neg h0] at hq
    have h1 := Option.some.inj hq
    subst h1
    exact ⟨hi, rfl, h0⟩

/-- The unsorted pair list enumerates outcomes in strictly increasing
order. -/
theorem resultPairs_fst_lt (s : Simulator) :
    (resultPairs s).Pairwise fun a b => a.1 < b.1 := by
  unfold resultPairs
  refine List.Pairwise.filterMap _ ?_ (List.pairwise_lt_range 256)
  intro i j hij b hb b' hb'
  by_cases h0 : s.hist i = 0
  · rw [if_pos h0] at hb
    simp at hb
  · rw [if_neg h0] at hb
    by_cases h1 : s.hist j = 0
    · rw [if_pos h1] at hb'
      simp at hb'
    · rw [if_neg h1] at hb'
      simp only [Option.mem_def, Option.some.injEq] at hb hb'
      subst hb
      subst hb'
      exact hij

/-- No outcome value appears twice among the snapshot pairs. -/
theorem resultPairs_nodup_fst (s : Simulator) :
    ((resultPairs s).map Prod.fst).Nodup := by
  refine List.pairwise_map.mpr ?_
  exact (resultPairs_fst_lt s).imp fun h => Nat.ne_of_lt h

/-- Claim C3: for every simulator and caller capacity `size`,
`simulator_results` writes at most `size` pairs, overwrites the size
out-parameter with the number of pairs actually written, writes only
outcomes with nonzero count (each with its true histogram count), and
orders the pairs by descending count with ties broken by strictly ascending
outcome value. -/
theorem results_ordering (s : Simulator) (size : Nat) :
    (simulator_results s size).1.length ≤ size ∧
    (simulator_results s size).2 = (simulator_results s size).1.length ∧
    (∀ q ∈ (simulator_results s size).1,
      q.1 < 256 ∧ q.2 = s.hist q.1 ∧ q.2 ≠ 0) ∧
    (simulator_results s size).1.Pairwise
      (fun a b => b.2 < a.2 ∨ (a.2 = b.2 ∧ a.1 < b.1)) := by
  have hperm : List.Perm (List.insertionSort pairOrder (resultPairs s)) (resultPairs s) :=
    List.perm_insertionSort _ _
  have hsorted : (List.insertionSort pairOrder (resultPairs s)).Sorted pairOrder :=
    List.sorted_insertionSort _ _
  have hsub : List.Sublist ((List.insertionSort pairOrder (resultPairs s)).take size)
      (List.insertionSort pairOrder (resultPairs s)) :=
    List.take_sublist _ _
  refine ⟨?_, rfl, ?_, ?_⟩
  · show ((List.insertionSort pairOrder (resultPairs s)).take size).length ≤ size
    rw [List.length_take]
    omega
  · intro q hq
    have hq1 : q ∈ List.insertionSort pairOrder (resultPairs s) := hsub.subset hq
    exact mem_resultPairs (hperm.subset hq1)
  · have h1 : ((List.insertionSort pairOrder (resultPairs s)).take size).Pairwise pairOrder :=
      List.Pairwise.sublist hsub hsorted
    have hm : ((List.insertionSort pairOrder (resultPairs s)).map Prod.fst).Nodup :=
      (hperm.map Prod.fst).nodup_iff.mpr (resultPairs_nodup_fst s)
    have h2 : (((List.insertionSort pairOrder (resultPairs s)).take size).map Prod.fst).Nodup :=
      List.Nodup.sublist (hsub.map Prod.fst) hm
    have h3 : ((List.insertionSort pairOrder (resultPairs s)).take size).Pairwise
        fun a b => a.1 ≠ b.1 :=
      List.pairwise_map.mp h2
    exact h1.imp₂
      (fun a b hab hne =>
        Or.elim hab Or.inl fun hx => Or.inr ⟨hx.1, Nat.lt_of_le_of_ne hx.2 hne⟩)
      h3

/-- Concrete instantiation of `results_ordering` at a fresh simulator. -/
theorem results_ordering_check :
    (simulator_results (mkSim none) 3).1.length ≤ 3 :=
  (results_ordering (mkSim none) 3).1

/-- The outcome value 7, used by the concrete demonstration run. -/
def o7 : Fin 256 := ⟨7, by omega⟩

/-- Budget-1 demonstration run: state after `simulator_start` with one
worker. -/
def runS1 : Simulator :=
  { mkSim (some 1) with running := true, workers := [Phase.acquire] }

/-- Demonstration run: the worker has claimed the single budgeted trial. -/
def runS2 : Simulator :=
  { runS1 with budget := some 0, started := 1, workers := [Phase.trial] }

/-- Demonstration run: the Decision Engine reported outcome 7. -/
def runS3 : Simulator :=
  { runS2 with workers := [Phase.recHist o7] }

/-- Demonstration run: the histogram increment has been performed. -/
def runS4 : Simulator :=
  { runS3 with hist := bump runS3.hist o7, workers := [Phase.recTotal] }

/-- Demonstration run: the total-counter increment has been performed. -/
def runS5 : Simulator :=
  { runS4 with total := 1, workers := [Phase.acquire] }

/-- Demonstration run: the worker saw the exhausted budget and terminated. -/
def runS6 : Simulator :=
  { runS5 with workers := [Phase.done] }

/-- The model is not vacuous: a budget-1 single-threaded run can actually be
driven from construction to natural exhaustion, where exactly one trial has
completed and the histogram sums to one. -/
theorem natural_exhaustion_reachable :
    Lifetime 1 (mkSim (some 1)) runS6 ∧ NaturalExhaustion runS6 ∧
      runS6.total = 1 ∧ runS6.started = 1 ∧ sumHist runS6.hist = 1 := by
  refine ⟨?_, ⟨?_, ?_, rfl⟩, rfl, rfl, ?_⟩
  · have h0 : LifeStep 1 (mkSim (some 1)) runS1 := LifeStep.start _ _ 1 rfl
    have h1 : Step runS1 runS2 := Step.acquire_claim runS1 [] [] 0 rfl rfl rfl
    have h2 : Step runS2 runS3 := Step.trial_decide runS2 [] [] o7 rfl
    have h3 : Step runS3 runS4 := Step.record_hist runS3 [] [] o7 rfl
    have h4 : Step runS4 runS5 := Step.record_total runS4 [] [] rfl
    have h5 : Step runS5 runS6 := Step.acquire_exhausted runS5 [] [] rfl rfl rfl
    exact Relation.ReflTransGen.head h0
      (Relation.ReflTransGen.head (LifeStep.work _ _ h1)
        (Relation.ReflTransGen.head (LifeStep.work _ _ h2)
          (Relation.ReflTransGen.head (LifeStep.work _ _ h3)
            (Relation.ReflTransGen.head (LifeStep.work _ _ h4)
              (Relation.ReflTransGen.single (LifeStep.work _ _ h5))))))
  · intro h
    simp [runS6] at h
  · intro w hw
    simp [runS6] at hw
    exact hw
  · have hz : sumHist (mkSim (some 1)).hist = 0 := by
      simp [sumHist, mkSim]
    have hb : sumHist runS6.hist = sumHist (mkSim (some 1)).hist + 1 :=
      sumHist_bump (mkSim (some 1)).hist o7
    omega

/-- Demonstration stop: the drained state of `runS1` after a stop request. -/
def stopT : Simulator :=
  { runS1 with stop_requested := true, workers := [Phase.done] }

/-- The model is not vacuous: `simulator_stop` on a running simulator is
inhabited — the worker observes the stop signal between trials, terminates,
and the joined simulator is Idle. -/
theorem stop_drains_demo :
    simulator_stop runS1 { stopT with running := false, workers := ([] : List Phase) } := by
  unfold simulator_stop
  rw [if_pos (show runS1.running = true from rfl)]
  refine ⟨stopT, ?_, ?_, rfl⟩
  · exact Relation.ReflTransGen.single (Step.acquire_stopped _ [] [] rfl rfl)
  · intro w hw
    simp [stopT] at hw
    exact hw

end Lorelei
